import Mathlib

/-!
Verification development for the auction-master backend.

This file gives a shallow embedding, in Lean 4, of the bidding core of the
repository: the Redis lock manager (redis-lock-manager.lib), the bid
processor service (bid-processor.service: processBidWithDistributedLock,
processBidTransaction, fetchCurrentAuctionBidInfo), the auction data
fetcher (auction-data-fetcher.service: markExpiredAuctionsAsEnded), the
socket event handlers (bid-events.socket: handlePlaceBid, handleJoinRoom)
and the expiry checker of the server entry point (checkExpiredAuctions).

Monetary values are modelled as rationals, timestamps as naturals, ids as
strings.  The Prisma store is a record of lists (auctions, bids, users) in
row-insertion order; Prisma findFirst with an orderBy clause is modelled as
the first listed row among those of maximal key.  Redis is an association
list of string keys to string values.
-/

deriving instance DecidableEq for Except

namespace AuctionMaster

/-- Status enum of auction_items (prisma enum AuctionItemStatus). -/
inductive AuctionItemStatus
  | ACTIVE
  | ENDED
  | CANCELLED
deriving DecidableEq, Repr

/-- Row of the users table (fields the bidding core reads). -/
structure UserRow where
  id : String
  username : String
deriving DecidableEq, Repr

/-- Row of the auction_items table (fields the bidding core reads or writes). -/
structure AuctionItem where
  id : String
  startingPriceInDollars : ℚ
  currentHighestBidInDollars : ℚ
  minimumBidIncrementInDollars : ℚ
  auctionStartTimeTimestamp : ℕ
  auctionEndTimeTimestamp : ℕ
  currentStatus : AuctionItemStatus
  creatorUserId : String
  winnerUserId : Option String
  updatedAtTimestamp : ℕ
deriving DecidableEq, Repr

/-- Row of the bids table. -/
structure BidRow where
  id : String
  auctionItemId : String
  bidderUserId : String
  bidAmountInDollars : ℚ
  placedAtTimestamp : ℕ
  wasBidSuccessful : Bool
deriving DecidableEq, Repr

/-- The relational store: lists of rows in insertion order. -/
structure Store where
  auctions : List AuctionItem
  bids : List BidRow
  users : List UserRow
deriving DecidableEq, Repr

/-- All bid rows on one auction item, in insertion order
(the prisma relation allBidsOnItem, counting failed attempts too). -/
def Store.bidsOn (db : Store) (auctionItemId : String) : List BidRow :=
  db.bids.filter (fun b => b.auctionItemId = auctionItemId)

/-- Successful bid rows on one auction item, in insertion order. -/
def Store.successfulBidsOn (db : Store) (auctionItemId : String) : List BidRow :=
  db.bids.filter (fun b => b.auctionItemId = auctionItemId && b.wasBidSuccessful)

/-- The auction row with the given id (prisma findUnique on the primary key). -/
def Store.findAuction (db : Store) (auctionItemId : String) : Option AuctionItem :=
  db.auctions.find? (fun a => a.id = auctionItemId)

/-- The user row with the given id. -/
def Store.findUser (db : Store) (userId : String) : Option UserRow :=
  db.users.find? (fun u => u.id = userId)

/-- Fold step of the findFirst model: a later row replaces the candidate only
when its amount is strictly greater. -/
def pickHigher (acc : Option BidRow) (b : BidRow) : Option BidRow :=
  match acc with
  | none => some b
  | some m => if m.bidAmountInDollars < b.bidAmountInDollars then some b else acc

/-- Prisma findFirst with orderBy bidAmountInDollars desc: the first listed
row among those of maximal amount.  Amount ties keep the earlier row — the
query itself states no tie order beyond the row order of the store. -/
def findFirstByAmountDesc (bids : List BidRow) : Option BidRow :=
  bids.foldl pickHigher none

/-- Highest successful bid on an auction, as the bid processor and the
data fetcher query it. -/
def Store.highestSuccessfulBid (db : Store) (auctionItemId : String) : Option BidRow :=
  findFirstByAmountDesc (db.successfulBidsOn auctionItemId)

-- ==============================  error-codes.constants.ts  ==============================

def BID_ERROR_CONCURRENT_BID : String := "BID_CONCURRENT_BID_ERROR"
def BID_ERROR_AUCTION_ENDED : String := "BID_AUCTION_ENDED"
def BID_ERROR_AUCTION_NOT_STARTED : String := "BID_AUCTION_NOT_STARTED"
def BID_ERROR_AUCTION_NOT_FOUND : String := "BID_AUCTION_NOT_FOUND"
def BID_ERROR_BID_TOO_LOW : String := "BID_AMOUNT_TOO_LOW"
def BID_ERROR_INVALID_AMOUNT : String := "BID_INVALID_AMOUNT"
def BID_ERROR_OWN_AUCTION : String := "BID_CANNOT_BID_ON_OWN_AUCTION"
def BID_ERROR_PROCESSING_FAILED : String := "BID_PROCESSING_FAILED"
def BID_ERROR_LOCK_ACQUISITION_FAILED : String := "BID_LOCK_ACQUISITION_FAILED"

-- ==============================  redis model  ==============================

/-- Redis key-value state (TTLs are not modelled; within one bidding step no
key expires, the lock TTL matters only across steps). -/
abbrev RedisState := List (String × String)

/-- Value stored under a key, or none when the key is absent. -/
def redisGet (r : RedisState) (key : String) : Option String :=
  (r.find? (fun e => e.1 = key)).map (fun e => e.2)

/-- SET key value: stores the value under the key. -/
def redisSet (r : RedisState) (key value : String) : RedisState :=
  (key, value) :: r.filter (fun e => e.1 ≠ key)

/-- DEL key. -/
def redisDel (r : RedisState) (key : String) : RedisState :=
  r.filter (fun e => e.1 ≠ key)

/-- Key builder from redis-keys.constants.ts (generateBidProcessingLockKey). -/
def generateBidProcessingLockKey (auctionItemId : String) : String :=
  "lock:bid-processing:" ++ auctionItemId

/-- Key builder from redis-keys.constants.ts (generateCurrentBidCacheKey). -/
def generateCurrentBidCacheKey (auctionItemId : String) : String :=
  "auction:current-bid:" ++ auctionItemId

/-- Key builder from redis-keys.constants.ts (generateHighestBidderCacheKey). -/
def generateHighestBidderCacheKey (auctionItemId : String) : String :=
  "auction:highest-bidder:" ++ auctionItemId

-- ==============================  redis-lock-manager.lib.ts  ==============================

/-- Result record of acquireDistributedLockForBidProcessing. -/
structure LockAcquisitionResult where
  wasLockAcquiredSuccessfully : Bool
  uniqueLockIdentifier : Option String
deriving DecidableEq, Repr

/-- Translation of acquireDistributedLockForBidProcessing: SET key token PX ttl NX.
The fresh uuid is passed in as a parameter. -/
def acquireDistributedLockForBidProcessing (r : RedisState) (auctionItemId token : String) :
    LockAcquisitionResult × RedisState :=
  let lockKeyName := generateBidProcessingLockKey auctionItemId
  match redisGet r lockKeyName with
  | none => (⟨true, some token⟩, redisSet r lockKeyName token)
  | some _ => (⟨false, none⟩, r)

/-- Translation of releaseDistributedLockForBidProcessing: the Lua script
deletes the key only when its current value equals the token. -/
def releaseDistributedLockForBidProcessing (r : RedisState) (auctionItemId token : String) :
    Bool × RedisState :=
  let lockKeyName := generateBidProcessingLockKey auctionItemId
  match redisGet r lockKeyName with
  | some v => if v = token then (true, redisDel r lockKeyName) else (false, r)
  | none => (false, r)

/-- Result record of executeWithDistributedLock. -/
structure ExecuteWithLockResult (T : Type) where
  wasExecutionSuccessful : Bool
  executionResult : Option T
  errorMessage : Option String
  wasLockAcquired : Bool

/-- Translation of executeWithDistributedLock.  The guarded callback is a
value of Except String T: ok models a normal return, error models a thrown
exception caught by the catch branch.  The finally branch releases the lock
after both branches; when acquisition fails the callback value is not
consumed and the early return reports wasLockAcquired false. -/
def executeWithDistributedLock {T : Type} (r : RedisState) (auctionItemId token : String)
    (callbackToExecuteWhileHoldingLock : Except String T) :
    ExecuteWithLockResult T × RedisState :=
  let (acq, r1) := acquireDistributedLockForBidProcessing r auctionItemId token
  if acq.wasLockAcquiredSuccessfully then
    match callbackToExecuteWhileHoldingLock with
    | Except.ok v =>
        (⟨true, some v, none, true⟩,
          (releaseDistributedLockForBidProcessing r1 auctionItemId token).2)
    | Except.error msg =>
        (⟨false, none, some msg, true⟩,
          (releaseDistributedLockForBidProcessing r1 auctionItemId token).2)
  else
    (⟨false, none, some "Lock is currently held by another process", false⟩, r1)

-- ==============================  bid-processor.service.ts  ==============================

/-- Result record of the bid processor (BidProcessingResult; the human-readable
errorMessage text and processingTimeInMs bookkeeping are presentation only and
are not modelled). -/
structure BidProcessingResult where
  wasBidSuccessful : Bool
  bidId : Option String
  newHighestBidInDollars : Option ℚ
  previousHighestBidInDollars : Option ℚ
  bidPlacedAtTimestamp : Option ℕ
  errorCode : Option String
deriving DecidableEq, Repr

/-- Translation of createErrorResult. -/
def createErrorResult (errorCode : String) : BidProcessingResult :=
  ⟨false, none, none, none, none, some errorCode⟩

/-- Translation of updateAuctionCacheInRedis: SETEX of the two advisory cache
keys (the internal catch branch never fails the bid, so the happy path alone
is modelled). -/
def updateAuctionCacheInRedis (r : RedisState) (auctionItemId : String)
    (currentBidInDollars : ℚ) (highestBidderUserId : String) : RedisState :=
  let r1 := redisSet r (generateCurrentBidCacheKey auctionItemId) (toString currentBidInDollars)
  redisSet r1 (generateHighestBidderCacheKey auctionItemId) highestBidderUserId

/-- Validation steps 2 to 4 of processBidTransaction, in source order: the
first failing check yields its error result, and none means every check
passed. -/
def validateBid (auctionItem : AuctionItem) (bidderUserId : String)
    (bidAmountInDollars : ℚ) (now : ℕ) : Option BidProcessingResult :=
  if auctionItem.currentStatus ≠ AuctionItemStatus.ACTIVE then
    some (createErrorResult BID_ERROR_AUCTION_ENDED)
  else if now < auctionItem.auctionStartTimeTimestamp then
    some (createErrorResult BID_ERROR_AUCTION_NOT_STARTED)
  else if auctionItem.auctionEndTimeTimestamp ≤ now then
    some (createErrorResult BID_ERROR_AUCTION_ENDED)
  else if auctionItem.creatorUserId = bidderUserId then
    some (createErrorResult BID_ERROR_OWN_AUCTION)
  else if bidAmountInDollars <
      auctionItem.currentHighestBidInDollars + auctionItem.minimumBidIncrementInDollars then
    some
      ⟨false, none, none, some auctionItem.currentHighestBidInDollars, none,
        some BID_ERROR_BID_TOO_LOW⟩
  else none

/-- Store state after the prisma transaction of step 5: the auction-row update
matches on the id alone — its where clause carries no condition on
currentHighestBidInDollars — and the successful bid row is inserted in the
same transaction. -/
def committedStore (dbCommit : Store) (auctionItemId bidderUserId : String)
    (bidAmountInDollars : ℚ) (now : ℕ) (newBidId : String) : Store :=
  { dbCommit with
    auctions := dbCommit.auctions.map (fun a =>
      if a.id = auctionItemId then
        { a with
          currentHighestBidInDollars := bidAmountInDollars
          updatedAtTimestamp := now }
      else a)
    bids := dbCommit.bids ++
      [⟨newBidId, auctionItemId, bidderUserId, bidAmountInDollars, now, true⟩] }

/-- Translation of processBidTransaction, split at its suspension point: the
findUnique of step 1 and the validations of steps 2 to 4 read the store as it
was at the read (dbRead), while the prisma transaction of step 5 runs against
the store as it is at commit time (dbCommit); the sequential runs of interest
take the two equal.  When the row to update is missing at commit time prisma
throws, modelled by the error branch of Except; every validation failure is an
ordinary returned value.  The fresh bid id and the wall-clock timestamp are
parameters. -/
def processBidTransactionAt (dbRead dbCommit : Store)
    (auctionItemId bidderUserId : String) (bidAmountInDollars : ℚ)
    (now : ℕ) (newBidId : String) :
    Except String (BidProcessingResult × Store) :=
  match dbRead.findAuction auctionItemId with
  | none => Except.ok (createErrorResult BID_ERROR_AUCTION_NOT_FOUND, dbCommit)
  | some auctionItem =>
    match validateBid auctionItem bidderUserId bidAmountInDollars now with
    | some errorResult => Except.ok (errorResult, dbCommit)
    | none =>
      if (dbCommit.findAuction auctionItemId).isSome then
        Except.ok
          (⟨true, some newBidId, some bidAmountInDollars,
              some auctionItem.currentHighestBidInDollars, some now, none⟩,
            committedStore dbCommit auctionItemId bidderUserId bidAmountInDollars now newBidId)
      else Except.error "Record to update not found"

/-- The sequential run of processBidTransaction: no other writer touches the
store between the read and the commit. -/
def processBidTransaction (db : Store) (auctionItemId bidderUserId : String)
    (bidAmountInDollars : ℚ) (now : ℕ) (newBidId : String) :
    Except String (BidProcessingResult × Store) :=
  processBidTransactionAt db db auctionItemId bidderUserId bidAmountInDollars now newBidId

/-- Translation of processBidWithDistributedLock.  The transaction runs as the
callback of executeWithDistributedLock; storeThrows models an exception thrown
by the store client before any write (a thrown transaction commits nothing).
Returns the result together with the store and redis afterwards.  The
successful path also refreshes the advisory cache keys. -/
def processBidWithDistributedLock (r : RedisState) (db : Store)
    (auctionItemId bidderUserId : String) (bidAmountInDollars : ℚ)
    (now : ℕ) (newBidId token : String) (storeThrows : Bool) :
    BidProcessingResult × Store × RedisState :=
  let callback : Except String (BidProcessingResult × Store) :=
    if storeThrows then Except.error "store error"
    else processBidTransaction db auctionItemId bidderUserId bidAmountInDollars now newBidId
  let (lockExecutionResult, r1) := executeWithDistributedLock r auctionItemId token callback
  if !lockExecutionResult.wasLockAcquired then
    (createErrorResult BID_ERROR_LOCK_ACQUISITION_FAILED, db, r1)
  else
    match lockExecutionResult.executionResult with
    | none => (createErrorResult BID_ERROR_PROCESSING_FAILED, db, r1)
    | some (result, dbAfter) =>
        let r2 :=
          if result.wasBidSuccessful then
            updateAuctionCacheInRedis r1 auctionItemId bidAmountInDollars bidderUserId
          else r1
        (result, dbAfter, r2)

/-- Record returned by fetchCurrentAuctionBidInfo (AuctionBidInfo). -/
structure AuctionBidInfo where
  auctionItemId : String
  currentHighestBidInDollars : ℚ
  highestBidderUserId : Option String
  highestBidderUsername : Option String
  minimumBidIncrementInDollars : ℚ
  auctionEndTimeTimestamp : ℕ
  totalNumberOfBids : ℕ
deriving DecidableEq, Repr

/-- Translation of fetchCurrentAuctionBidInfo: a findUnique on the auction with
a count of the allBidsOnItem relation (all bid rows, failed attempts included),
then a findFirst for the highest successful bid joined to its bidder.  Every
read goes to the relational store; no coordinator key is consulted. -/
def fetchCurrentAuctionBidInfo (db : Store) (auctionItemId : String) :
    Option AuctionBidInfo :=
  match db.findAuction auctionItemId with
  | none => none
  | some auctionItem =>
    let highestBid := db.highestSuccessfulBid auctionItemId
    some
      { auctionItemId := auctionItem.id
        currentHighestBidInDollars := auctionItem.currentHighestBidInDollars
        highestBidderUserId := highestBid.map (fun b => b.bidderUserId)
        highestBidderUsername :=
          highestBid.bind (fun b => (db.findUser b.bidderUserId).map (fun u => u.username))
        minimumBidIncrementInDollars := auctionItem.minimumBidIncrementInDollars
        auctionEndTimeTimestamp := auctionItem.auctionEndTimeTimestamp
        totalNumberOfBids := (db.bidsOn auctionItemId).length }

-- ==============================  auction-data-fetcher.service.ts  ==============================

/-- Winner-assignment loop of markExpiredAuctionsAsEnded: for each pending
auction id the highest successful bid is looked up (bid rows never change in
the loop) and, when one exists, that auction row alone gets its winnerUserId
set. -/
def assignWinners (bids : List BidRow) (pending : List String)
    (auctions : List AuctionItem) : List AuctionItem :=
  match pending with
  | [] => auctions
  | auctionId :: rest =>
    let highestBid :=
      findFirstByAmountDesc
        (bids.filter (fun b => b.auctionItemId = auctionId && b.wasBidSuccessful))
    let auctions1 :=
      match highestBid with
      | some hb =>
          auctions.map (fun a =>
            if a.id = auctionId then { a with winnerUserId := some hb.bidderUserId } else a)
      | none => auctions
    assignWinners bids rest auctions1

/-- Translation of markExpiredAuctionsAsEnded.  Step 1 is the updateMany that
flips every ACTIVE auction whose end time has passed to ENDED and yields the
affected row count, which is the return value of the function.  Step 2 then
queries every ENDED auction whose winnerUserId is null — not only the rows the
updateMany just flipped — and assigns each one the bidder of its highest
successful bid, when it has one. -/
def markExpiredAuctionsAsEnded (db : Store) (now : ℕ) : ℕ × Store :=
  let expired := fun (a : AuctionItem) =>
    a.currentStatus = AuctionItemStatus.ACTIVE && a.auctionEndTimeTimestamp ≤ now
  let count := (db.auctions.filter expired).length
  let flipped := db.auctions.map (fun a =>
    if expired a then { a with currentStatus := AuctionItemStatus.ENDED } else a)
  let pending :=
    (flipped.filter (fun a =>
      a.currentStatus = AuctionItemStatus.ENDED && a.winnerUserId = none)).map
      (fun a => a.id)
  (count, { db with auctions := assignWinners db.bids pending flipped })

-- ==============================  server entry point (index.ts)  ==============================

/-- Event io.emit sends in the expiry-checker loop: auction-ended data pushed
to every connected client. -/
structure AuctionEndedEmit where
  auctionItemId : String
  winnerUserId : Option String
deriving DecidableEq, Repr

/-- Reading a named property of a primitive JavaScript number yields
undefined, modelled as none. -/
def jsNumberCountProperty (_n : ℕ) : Option ℕ := none

/-- In JavaScript a comparison of undefined with a number is false. -/
def jsGreaterThanZero (v : Option ℕ) : Bool :=
  match v with
  | some c => 0 < c
  | none => false

/-- Translation of checkExpiredAuctions.  The call stores the return value of
markExpiredAuctionsAsEnded — a plain number — in result, then reads
result.count, a property a number does not have, so the guard sees undefined
and the per-auction broadcast loop over result.endedAuctions is never
entered.  The returned list is every event the tick emits. -/
def checkExpiredAuctions (db : Store) (now : ℕ) : List AuctionEndedEmit × Store :=
  let (result, dbAfter) := markExpiredAuctionsAsEnded db now
  if jsGreaterThanZero (jsNumberCountProperty result) then
    -- Unreachable: were this branch entered, the for..of loop over the
    -- likewise-undefined endedAuctions property would throw before any emit
    -- and the surrounding catch would swallow the error.
    ([], dbAfter)
  else
    ([], dbAfter)

-- ==============================  bid-events.socket.ts  ==============================

/-- Authenticated user data attached to a socket (AuthenticatedSocketData). -/
structure UserData where
  userId : String
  username : String
deriving DecidableEq, Repr

/-- Payload of the PLACE_BID client event.  The amount is an Option: none
models a payload whose bidAmountInDollars fails the typeof number check. -/
structure PlaceBidPayload where
  auctionItemId : String
  bidAmountInDollars : Option ℚ
deriving DecidableEq, Repr

/-- Server-to-client events the bid handlers emit, with their payload fields. -/
inductive ServerEvent
  | bidPlacedError (auctionItemId errorCode : String)
  | bidPlacedSuccess (auctionItemId : String) (bidAmountInDollars : ℚ)
      (bidId : String) (bidPlacedAtTimestamp : ℕ)
  | bidUpdateBroadcast (auctionItemId : String) (newHighestBidInDollars : ℚ)
      (highestBidderUserId highestBidderUsername : String)
      (bidPlacedAtTimestamp totalNumberOfBids : ℕ)
  | joinedAuctionRoom (auctionItemId : String)
  | auctionStateSync (auctionItemId : String) (currentHighestBidInDollars : ℚ)
      (highestBidderUserId highestBidderUsername : Option String)
      (auctionEndTimeTimestamp : ℕ) (currentStatus : String)
      (totalNumberOfBids : ℕ)
deriving DecidableEq, Repr

/-- Everything observable from one handlePlaceBid call: the events emitted to
the calling socket, the events broadcast to the auction room, whether the call
reached processBidWithDistributedLock at all, and the store and redis states
afterwards. -/
structure PlaceBidOutcome where
  socketEvents : List ServerEvent
  roomEvents : List ServerEvent
  bidPipelineInvoked : Bool
  db : Store
  redis : RedisState

/-- Translation of handlePlaceBid.  The authentication guard runs first; then
the shape guard rejects a falsy auctionItemId, a non-number amount, or an
amount that is not positive, emitting the literal errorCode VALIDATION_ERROR
and returning before any lock or store access.  No other shape check exists:
in particular no bound on fractional digits.  A surviving request goes to
processBidWithDistributedLock; on success the socket gets BID_PLACED_SUCCESS
and the room a BID_UPDATE_BROADCAST whose totalNumberOfBids comes from a fresh
fetchCurrentAuctionBidInfo read defaulted to 1 when falsy, and on failure the
socket gets BID_PLACED_ERROR with the result errorCode defaulted to
BID_FAILED. -/
def handlePlaceBid (userData : Option UserData) (payload : PlaceBidPayload)
    (db : Store) (r : RedisState) (now : ℕ) (newBidId token : String)
    (storeThrows : Bool) : PlaceBidOutcome :=
  match userData with
  | none =>
      ⟨[ServerEvent.bidPlacedError payload.auctionItemId "AUTH_ERROR"], [], false, db, r⟩
  | some user =>
    let shapeInvalid : Bool :=
      payload.auctionItemId = "" ||
        match payload.bidAmountInDollars with
        | none => true
        | some a => a ≤ 0
    if shapeInvalid then
      ⟨[ServerEvent.bidPlacedError payload.auctionItemId "VALIDATION_ERROR"], [],
        false, db, r⟩
    else
      let amount := payload.bidAmountInDollars.getD 0
      let out :=
        processBidWithDistributedLock r db payload.auctionItemId user.userId amount
          now newBidId token storeThrows
      let result := out.1
      let dbAfter := out.2.1
      let rAfter := out.2.2
      if result.wasBidSuccessful then
        let successEvent :=
          ServerEvent.bidPlacedSuccess payload.auctionItemId amount
            (result.bidId.getD "") (result.bidPlacedAtTimestamp.getD 0)
        let bidInfo := fetchCurrentAuctionBidInfo dbAfter payload.auctionItemId
        let totalNumberOfBids :=
          match bidInfo with
          | some info => if info.totalNumberOfBids = 0 then 1 else info.totalNumberOfBids
          | none => 1
        let broadcastEvent :=
          ServerEvent.bidUpdateBroadcast payload.auctionItemId
            (result.newHighestBidInDollars.getD 0) user.userId user.username
            (result.bidPlacedAtTimestamp.getD 0) totalNumberOfBids
        ⟨[successEvent], [broadcastEvent], true, dbAfter, rAfter⟩
      else
        ⟨[ServerEvent.bidPlacedError payload.auctionItemId
            (result.errorCode.getD "BID_FAILED")], [], true, dbAfter, rAfter⟩

/-- Translation of handleJoinRoom.  A falsy auctionItemId returns silently;
otherwise the socket joins the room, gets JOINED_AUCTION_ROOM, and — when
fetchCurrentAuctionBidInfo finds the auction — an AUCTION_STATE_SYNC built
from that store read, with the currentStatus field the string literal ACTIVE.
The redis parameter is the coordinator state at call time; no part of the
handler or of fetchCurrentAuctionBidInfo reads it. -/
def handleJoinRoom (db : Store) (_r : RedisState) (auctionItemId : String) :
    List ServerEvent :=
  if auctionItemId = "" then []
  else
    let joinedEvent := ServerEvent.joinedAuctionRoom auctionItemId
    match fetchCurrentAuctionBidInfo db auctionItemId with
    | none => [joinedEvent]
    | some bidInfo =>
        [joinedEvent,
          ServerEvent.auctionStateSync bidInfo.auctionItemId
            bidInfo.currentHighestBidInDollars bidInfo.highestBidderUserId
            bidInfo.highestBidderUsername bidInfo.auctionEndTimeTimestamp
            "ACTIVE" bidInfo.totalNumberOfBids]

-- ==============================  helper lemmas  ==============================

lemma redisGet_set_self (r : RedisState) (k v : String) :
    redisGet (redisSet r k v) k = some v := by
  simp [redisGet, redisSet]

lemma redisGet_del_self (r : RedisState) (k : String) :
    redisGet (redisDel r k) k = none := by
  simp only [redisGet, redisDel, Option.map_eq_none', List.find?_eq_none,
    List.mem_filter]
  intro e he
  simpa using he.2

-- ==============================  C7  ==============================

/-- C7.  The lock service's structured execution (executeWithDistributedLock)
releases the per-auction lock on every exit path: after the call the
coordinator holds no lock entry for the auction when none was held before
the call, whether the guarded callback returned normally (ok, carrying a
success or an error result) or threw (error).  And when acquisition fails
because the lock key is already held, the result reports wasLockAcquired
false and the whole call is independent of the guarded callback — the
callback is never invoked. -/
theorem executeWithDistributedLock_releases_and_guards {T : Type}
    (r : RedisState) (auctionItemId token : String)
    (cb cb2 : Except String T) :
    (redisGet r (generateBidProcessingLockKey auctionItemId) = none →
      redisGet (executeWithDistributedLock r auctionItemId token cb).2
        (generateBidProcessingLockKey auctionItemId) = none)
    ∧ (∀ v, redisGet r (generateBidProcessingLockKey auctionItemId) = some v →
        (executeWithDistributedLock r auctionItemId token cb).1.wasLockAcquired = false
        ∧ executeWithDistributedLock r auctionItemId token cb
            = executeWithDistributedLock r auctionItemId token cb2) := by
  constructor
  · intro hfree
    cases cb <;>
      simp [executeWithDistributedLock, acquireDistributedLockForBidProcessing,
        releaseDistributedLockForBidProcessing, hfree, redisGet_set_self,
        redisGet_del_self]
  · intro v hheld
    constructor <;>
      simp [executeWithDistributedLock, acquireDistributedLockForBidProcessing, hheld]

/-- Witness for C7: a concrete free-lock run ends with the lock key absent,
and a concrete held-lock run reports acquisition failure with a result
independent of the callback. -/
theorem executeWithDistributedLock_releases_and_guards_witness :
    (redisGet (executeWithDistributedLock ([] : RedisState) "a1" "tok"
        (Except.ok (0 : ℕ))).2 (generateBidProcessingLockKey "a1") = none)
    ∧ ((executeWithDistributedLock
          [(generateBidProcessingLockKey "a1", "other")] "a1" "tok"
          (Except.ok (0 : ℕ))).1.wasLockAcquired = false
        ∧ executeWithDistributedLock
            [(generateBidProcessingLockKey "a1", "other")] "a1" "tok"
            (Except.ok (0 : ℕ))
          = executeWithDistributedLock
              [(generateBidProcessingLockKey "a1", "other")] "a1" "tok"
              (Except.error "thrown")) :=
  ⟨(executeWithDistributedLock_releases_and_guards [] "a1" "tok"
      (Except.ok 0) (Except.ok 1)).1 rfl,
    (executeWithDistributedLock_releases_and_guards
      [(generateBidProcessingLockKey "a1", "other")] "a1" "tok"
      (Except.ok 0) (Except.error "thrown")).2 "other" rfl⟩

-- ==============================  transaction characterization  ==============================

lemma validateBid_none_conditions (auctionItem : AuctionItem) (bidderUserId : String)
    (amt : ℚ) (now : ℕ)
    (h : validateBid auctionItem bidderUserId amt now = none) :
    auctionItem.currentStatus = AuctionItemStatus.ACTIVE
    ∧ auctionItem.auctionStartTimeTimestamp ≤ now
    ∧ now < auctionItem.auctionEndTimeTimestamp
    ∧ auctionItem.creatorUserId ≠ bidderUserId
    ∧ auctionItem.currentHighestBidInDollars
        + auctionItem.minimumBidIncrementInDollars ≤ amt := by
  unfold validateBid at h
  split_ifs at h with h1 h2 h3 h4 h5
  exact ⟨not_not.mp h1, by omega, by omega, h4, not_lt.mp h5⟩

lemma validateBid_some_failure (auctionItem : AuctionItem) (bidderUserId : String)
    (amt : ℚ) (now : ℕ) (r : BidProcessingResult)
    (h : validateBid auctionItem bidderUserId amt now = some r) :
    r.wasBidSuccessful = false ∧ r.errorCode ≠ some BID_ERROR_CONCURRENT_BID := by
  unfold validateBid at h
  split_ifs at h <;> cases h <;>
    exact ⟨rfl, fun hcon => absurd (Option.some.inj hcon) (by decide)⟩

lemma processBidTransactionAt_ok_success (dbRead dbCommit : Store)
    (auctionItemId bidderUserId : String) (amt : ℚ) (now : ℕ) (newBidId : String)
    (res : BidProcessingResult × Store)
    (h : processBidTransactionAt dbRead dbCommit auctionItemId bidderUserId amt now newBidId
        = Except.ok res)
    (hs : res.1.wasBidSuccessful = true) :
    ∃ auctionItem, dbRead.findAuction auctionItemId = some auctionItem
      ∧ auctionItem.currentStatus = AuctionItemStatus.ACTIVE
      ∧ auctionItem.auctionStartTimeTimestamp ≤ now
      ∧ now < auctionItem.auctionEndTimeTimestamp
      ∧ auctionItem.creatorUserId ≠ bidderUserId
      ∧ auctionItem.currentHighestBidInDollars
          + auctionItem.minimumBidIncrementInDollars ≤ amt
      ∧ res.1 = ⟨true, some newBidId, some amt,
          some auctionItem.currentHighestBidInDollars, some now, none⟩
      ∧ res.2 = committedStore dbCommit auctionItemId bidderUserId amt now newBidId := by
  unfold processBidTransactionAt at h
  cases hfind : dbRead.findAuction auctionItemId with
  | none =>
      simp only [hfind] at h
      cases h
      cases hs
  | some auctionItem =>
      simp only [hfind] at h
      cases hval : validateBid auctionItem bidderUserId amt now with
      | some r =>
          simp only [hval] at h
          cases h
          have hfail := (validateBid_some_failure auctionItem bidderUserId amt now r hval).1
          rw [hfail] at hs
          cases hs
      | none =>
          simp only [hval] at h
          obtain ⟨hact, hstart, hend, hown, hreq⟩ :=
            validateBid_none_conditions auctionItem bidderUserId amt now hval
          split at h
          · cases h
            exact ⟨auctionItem, rfl, hact, hstart, hend, hown, hreq, rfl, rfl⟩
          · cases h

lemma processBidTransactionAt_ok_failure (dbRead dbCommit : Store)
    (auctionItemId bidderUserId : String) (amt : ℚ) (now : ℕ) (newBidId : String)
    (res : BidProcessingResult × Store)
    (h : processBidTransactionAt dbRead dbCommit auctionItemId bidderUserId amt now newBidId
        = Except.ok res)
    (hs : res.1.wasBidSuccessful = false) :
    res.2 = dbCommit := by
  unfold processBidTransactionAt at h
  cases hfind : dbRead.findAuction auctionItemId with
  | none =>
      simp only [hfind] at h
      cases h
      rfl
  | some auctionItem =>
      simp only [hfind] at h
      cases hval : validateBid auctionItem bidderUserId amt now with
      | some r =>
          simp only [hval] at h
          cases h
          rfl
      | none =>
          simp only [hval] at h
          split at h
          · cases h
            cases hs
          · cases h

lemma processBidTransactionAt_errorCode_ne_concurrent (dbRead dbCommit : Store)
    (auctionItemId bidderUserId : String) (amt : ℚ) (now : ℕ) (newBidId : String)
    (res : BidProcessingResult × Store)
    (h : processBidTransactionAt dbRead dbCommit auctionItemId bidderUserId amt now newBidId
        = Except.ok res) :
    res.1.errorCode ≠ some BID_ERROR_CONCURRENT_BID := by
  unfold processBidTransactionAt at h
  cases hfind : dbRead.findAuction auctionItemId with
  | none =>
      simp only [hfind] at h
      cases h
      exact fun hcon => absurd (Option.some.inj hcon) (by decide)
  | some auctionItem =>
      simp only [hfind] at h
      cases hval : validateBid auctionItem bidderUserId amt now with
      | some r =>
          simp only [hval] at h
          cases h
          exact (validateBid_some_failure auctionItem bidderUserId amt now r hval).2
      | none =>
          simp only [hval] at h
          split at h
          · cases h
            simp
          · cases h

lemma processBidWithDistributedLock_result_cases (r : RedisState) (db : Store)
    (auctionItemId bidderUserId : String) (amt : ℚ) (now : ℕ)
    (newBidId token : String) (storeThrows : Bool) :
    (processBidWithDistributedLock r db auctionItemId bidderUserId amt now newBidId
        token storeThrows).1 = createErrorResult BID_ERROR_LOCK_ACQUISITION_FAILED
    ∨ (processBidWithDistributedLock r db auctionItemId bidderUserId amt now newBidId
        token storeThrows).1 = createErrorResult BID_ERROR_PROCESSING_FAILED
    ∨ processBidTransaction db auctionItemId bidderUserId amt now newBidId
        = Except.ok
            ((processBidWithDistributedLock r db auctionItemId bidderUserId amt now newBidId
                token storeThrows).1,
              (processBidWithDistributedLock r db auctionItemId bidderUserId amt now newBidId
                token storeThrows).2.1) := by
  unfold processBidWithDistributedLock executeWithDistributedLock
    acquireDistributedLockForBidProcessing
  cases hget : redisGet r (generateBidProcessingLockKey auctionItemId) with
  | some v =>
      left
      simp [hget]
  | none =>
      cases storeThrows with
      | true =>
          right; left
          simp [hget]
      | false =>
          cases hcb : processBidTransaction db auctionItemId bidderUserId amt now newBidId with
          | error e =>
              right; left
              simp [hget, hcb]
          | ok res =>
              right; right
              simp [hget, hcb]

/-- C1 is refuted on the code: with the auction row read at 100 dollars and the
row at commit time sitting at 150 dollars (an interfering write between the
read and the transaction), the transaction still succeeds, overwrites the row
to the 120-dollar bid and returns an accepted result — it does not abort with
the Conflict error BID_CONCURRENT_BID_ERROR as the claim requires when the
conditional update would match zero rows. -/
theorem placeBid_conflict_counterexample :
    ((⟨[⟨"a1", 100, 100, 10, 0, 1000, AuctionItemStatus.ACTIVE, "carol", none, 0⟩], [], []⟩ :
        Store).findAuction "a1").map (fun a => a.currentHighestBidInDollars) = some 100
    ∧ ((⟨[⟨"a1", 100, 150, 10, 0, 1000, AuctionItemStatus.ACTIVE, "carol", none, 0⟩], [], []⟩ :
        Store).findAuction "a1").map (fun a => a.currentHighestBidInDollars) = some 150
    ∧ processBidTransactionAt
        ⟨[⟨"a1", 100, 100, 10, 0, 1000, AuctionItemStatus.ACTIVE, "carol", none, 0⟩], [], []⟩
        ⟨[⟨"a1", 100, 150, 10, 0, 1000, AuctionItemStatus.ACTIVE, "carol", none, 0⟩], [], []⟩
        "a1" "bob" 120 500 "b1"
      = Except.ok
          (⟨true, some "b1", some 120, some 100, some 500, none⟩,
            ⟨[⟨"a1", 100, 120, 10, 0, 1000, AuctionItemStatus.ACTIVE, "carol", none, 500⟩],
              [⟨"b1", "a1", "bob", 120, 500, true⟩], []⟩) := by
  refine ⟨rfl, rfl, ?_⟩
  simp [processBidTransactionAt, validateBid, committedStore, Store.findAuction,
    show ¬((120 : ℚ) < 100 + 10) by norm_num]

/-- C1 amended.  The store transaction's auction-row update matches on the
auction id alone and is unconditional on currentHighestBidInDollars: whatever
the row holds at commit time, a transaction that succeeds commits exactly the
unconditional overwrite, and no outcome of the transaction — nor of the whole
locked pipeline — ever carries the Conflict error code
BID_CONCURRENT_BID_ERROR; concurrency protection rests on the distributed
lock alone. -/
theorem placeBid_update_unconditional_never_conflict (dbRead dbCommit : Store)
    (auctionItemId bidderUserId : String) (amt : ℚ) (now : ℕ) (newBidId : String)
    (r : RedisState) (token : String) (storeThrows : Bool) :
    (∀ res,
        processBidTransactionAt dbRead dbCommit auctionItemId bidderUserId amt now newBidId
            = Except.ok res →
          res.1.errorCode ≠ some BID_ERROR_CONCURRENT_BID
          ∧ (res.1.wasBidSuccessful = true →
              res.2 = committedStore dbCommit auctionItemId bidderUserId amt now newBidId))
    ∧ (processBidWithDistributedLock r dbRead auctionItemId bidderUserId amt now newBidId
        token storeThrows).1.errorCode ≠ some BID_ERROR_CONCURRENT_BID := by
  constructor
  · intro res h
    refine ⟨processBidTransactionAt_errorCode_ne_concurrent _ _ _ _ _ _ _ _ h, fun hs => ?_⟩
    obtain ⟨ai, -, -, -, -, -, -, -, hdb⟩ :=
      processBidTransactionAt_ok_success _ _ _ _ _ _ _ _ h hs
    exact hdb
  · rcases processBidWithDistributedLock_result_cases r dbRead auctionItemId bidderUserId
        amt now newBidId token storeThrows with hcase | hcase | hcase
    · rw [hcase]
      exact fun hcon => absurd (Option.some.inj hcon) (by decide)
    · rw [hcase]
      exact fun hcon => absurd (Option.some.inj hcon) (by decide)
    · exact processBidTransactionAt_errorCode_ne_concurrent _ _ _ _ _ _ _ _ hcase

/-- Witness for the amended C1 at the counterexample input: the transaction
succeeds and the committed store is the unconditional overwrite of the
commit-time row. -/
theorem placeBid_update_unconditional_never_conflict_witness :
    (⟨true, some "b1", some 120, some 100, some 500, none⟩ :
        BidProcessingResult).errorCode ≠ some BID_ERROR_CONCURRENT_BID
    ∧ (⟨[⟨"a1", 100, 120, 10, 0, 1000, AuctionItemStatus.ACTIVE, "carol", none, 500⟩],
          [⟨"b1", "a1", "bob", 120, 500, true⟩], []⟩ : Store)
      = committedStore
          ⟨[⟨"a1", 100, 150, 10, 0, 1000, AuctionItemStatus.ACTIVE, "carol", none, 0⟩], [], []⟩
          "a1" "bob" 120 500 "b1" := by
  have h :=
    (placeBid_update_unconditional_never_conflict
      ⟨[⟨"a1", 100, 100, 10, 0, 1000, AuctionItemStatus.ACTIVE, "carol", none, 0⟩], [], []⟩
      ⟨[⟨"a1", 100, 150, 10, 0, 1000, AuctionItemStatus.ACTIVE, "carol", none, 0⟩], [], []⟩
      "a1" "bob" 120 500 "b1" [] "tok" false).1
      (⟨true, some "b1", some 120, some 100, some 500, none⟩,
        ⟨[⟨"a1", 100, 120, 10, 0, 1000, AuctionItemStatus.ACTIVE, "carol", none, 500⟩],
          [⟨"b1", "a1", "bob", 120, 500, true⟩], []⟩)
      (by
        simp [processBidTransactionAt, validateBid, committedStore, Store.findAuction,
          show ¬((120 : ℚ) < 100 + 10) by norm_num])
  exact ⟨h.1, h.2 rfl⟩

-- ==============================  C8  ==============================

/-- Translation of recordFailedBidAttempt: inserts one bid row with
wasBidSuccessful false (placedAtTimestamp comes from the row default;
bidProcessingTimeInMs is audit bookkeeping and is not modelled). -/
def recordFailedBidAttempt (db : Store) (auctionItemId bidderUserId : String)
    (bidAmountInDollars : ℚ) (placedAt : ℕ) (newBidId : String) : Store :=
  { db with
    bids := db.bids ++
      [⟨newBidId, auctionItemId, bidderUserId, bidAmountInDollars, placedAt, false⟩] }

lemma processBidWithDistributedLock_failure_db (r : RedisState) (db : Store)
    (auctionItemId bidderUserId : String) (amt : ℚ) (now : ℕ)
    (newBidId token : String) (storeThrows : Bool)
    (hfail : (processBidWithDistributedLock r db auctionItemId bidderUserId amt now newBidId
        token storeThrows).1.wasBidSuccessful = false) :
    (processBidWithDistributedLock r db auctionItemId bidderUserId amt now newBidId
        token storeThrows).2.1 = db := by
  unfold processBidWithDistributedLock executeWithDistributedLock
    acquireDistributedLockForBidProcessing at hfail ⊢
  cases hget : redisGet r (generateBidProcessingLockKey auctionItemId) with
  | some v => simp [hget]
  | none =>
      cases storeThrows with
      | true => simp [hget]
      | false =>
          cases hcb : processBidTransaction db auctionItemId bidderUserId amt now newBidId with
          | error e => simp [hget, hcb]
          | ok res =>
              simp only [hget, hcb] at hfail ⊢
              exact processBidTransactionAt_ok_failure _ _ _ _ _ _ _ _ hcb (by simpa using hfail)

/-- C8.  A placeBid call that returns an unsuccessful result — any error code:
lock unavailable, processing failure from a thrown store call, or any
validation error — leaves the relational store as it was: every auction row
keeps its currentHighestBidInDollars, currentStatus and winnerUserId, and the
successful-bid rows of every auction are unchanged.  The failed-bid audit
insert (recordFailedBidAttempt) likewise never touches auction rows or adds a
successful bid row. -/
theorem placeBid_failure_leaves_store_unchanged (r : RedisState) (db : Store)
    (auctionItemId bidderUserId : String) (amt : ℚ) (now : ℕ)
    (newBidId token : String) (storeThrows : Bool) (auditBidId : String) :
    ((processBidWithDistributedLock r db auctionItemId bidderUserId amt now newBidId
          token storeThrows).1.wasBidSuccessful = false →
      (processBidWithDistributedLock r db auctionItemId bidderUserId amt now newBidId
          token storeThrows).2.1.auctions = db.auctions
      ∧ ∀ x, (processBidWithDistributedLock r db auctionItemId bidderUserId amt now newBidId
          token storeThrows).2.1.successfulBidsOn x = db.successfulBidsOn x)
    ∧ (recordFailedBidAttempt db auctionItemId bidderUserId amt now auditBidId).auctions
        = db.auctions
    ∧ ∀ x, (recordFailedBidAttempt db auctionItemId bidderUserId amt now auditBidId).successfulBidsOn x
        = db.successfulBidsOn x := by
  refine ⟨fun hfail => ?_, rfl, fun x => ?_⟩
  · rw [processBidWithDistributedLock_failure_db r db auctionItemId bidderUserId amt now
      newBidId token storeThrows hfail]
    exact ⟨rfl, fun _ => rfl⟩
  · simp [recordFailedBidAttempt, Store.successfulBidsOn]

/-- Witness for C8: a concrete rejected bid — the auction does not exist — and
a concrete audit insert both leave the (empty) store unchanged. -/
theorem placeBid_failure_leaves_store_unchanged_witness :
    ((processBidWithDistributedLock [] ⟨[], [], []⟩ "a1" "bob" 120 500 "b1"
          "tok" false).1.wasBidSuccessful = false →
      (processBidWithDistributedLock [] ⟨[], [], []⟩ "a1" "bob" 120 500 "b1"
          "tok" false).2.1.auctions = (⟨[], [], []⟩ : Store).auctions
      ∧ ∀ x, (processBidWithDistributedLock [] ⟨[], [], []⟩ "a1" "bob" 120 500 "b1"
          "tok" false).2.1.successfulBidsOn x = (⟨[], [], []⟩ : Store).successfulBidsOn x)
    ∧ (processBidWithDistributedLock [] ⟨[], [], []⟩ "a1" "bob" 120 500 "b1"
        "tok" false).1.wasBidSuccessful = false :=
  ⟨(placeBid_failure_leaves_store_unchanged [] ⟨[], [], []⟩ "a1" "bob" 120 500 "b1"
      "tok" false "b2").1, rfl⟩

-- ==============================  C10  ==============================

/-- Amount-carrying events report exactly the given amount; other events
carry no bid amount. -/
def eventCarriesSubmittedAmount (amt : ℚ) : ServerEvent → Prop
  | ServerEvent.bidPlacedSuccess _ a _ _ => a = amt
  | ServerEvent.bidUpdateBroadcast _ newHighest _ _ _ _ => newHighest = amt
  | _ => True

lemma processBidWithDistributedLock_success_spec (r : RedisState) (db : Store)
    (auctionItemId bidderUserId : String) (amt : ℚ) (now : ℕ)
    (newBidId token : String) (storeThrows : Bool)
    (hs : (processBidWithDistributedLock r db auctionItemId bidderUserId amt now newBidId
        token storeThrows).1.wasBidSuccessful = true) :
    (processBidWithDistributedLock r db auctionItemId bidderUserId amt now newBidId
        token storeThrows).1.newHighestBidInDollars = some amt
    ∧ (processBidWithDistributedLock r db auctionItemId bidderUserId amt now newBidId
        token storeThrows).2.1
      = committedStore db auctionItemId bidderUserId amt now newBidId := by
  unfold processBidWithDistributedLock executeWithDistributedLock
    acquireDistributedLockForBidProcessing at hs ⊢
  cases hget : redisGet r (generateBidProcessingLockKey auctionItemId) with
  | some v => simp [hget, createErrorResult] at hs
  | none =>
      cases storeThrows with
      | true => simp [hget, createErrorResult] at hs
      | false =>
          cases hcb : processBidTransaction db auctionItemId bidderUserId amt now newBidId with
          | error e => simp [hget, hcb, createErrorResult] at hs
          | ok res =>
              simp [hget, hcb] at hs ⊢
              obtain ⟨ai, -, -, -, -, -, -, hres, hdb⟩ :=
                processBidTransactionAt_ok_success _ _ _ _ _ _ _ _ hcb (by simpa using hs)
              refine ⟨by rw [hres], by simpa using hdb⟩

/-- Two-decimal quantization the store applies at the write: the auction and
bid amount columns are DECIMAL(12,2) (migration.sql: current_bid, bid_amount,
minimum_bid_increment), so a committed value keeps two fractional digits.
For the positive amounts the pipeline accepts, round-half-up agrees with the
numeric type rounding. -/
def roundToCents (q : ℚ) : ℚ := ((round (q * 100) : ℤ) : ℚ) / 100

/-- Store state after the prisma transaction of step 5 as the schema commits
it: the same where-id-only update and bid insert as committedStore, with the
written amounts quantized to two fractional digits by the DECIMAL(12,2)
columns. -/
def committedStoreDecimal (dbCommit : Store) (auctionItemId bidderUserId : String)
    (bidAmountInDollars : ℚ) (now : ℕ) (newBidId : String) : Store :=
  { dbCommit with
    auctions := dbCommit.auctions.map (fun a =>
      if a.id = auctionItemId then
        { a with
          currentHighestBidInDollars := roundToCents bidAmountInDollars
          updatedAtTimestamp := now }
      else a)
    bids := dbCommit.bids ++
      [⟨newBidId, auctionItemId, bidderUserId, roundToCents bidAmountInDollars, now, true⟩] }

/-- Store fixture for the amount-rounding claims: one ACTIVE auction at 100
dollars with the schema-minimal 0.01-dollar increment. -/
def decimalRoundDb : Store :=
  ⟨[⟨"a1", 100, 100, (0.01 : ℚ), 0, 1000, AuctionItemStatus.ACTIVE, "carol", none, 0⟩],
    [], []⟩

/-- C10 is refuted on the schema: a submitted amount of 100.015 dollars passes
the pipeline and is reported and broadcast as 100.015, but the DECIMAL(12,2)
columns quantize at the store write, so the committed auction row and bid row
hold 100.02, not the submitted amount — a two-decimal normalization does
happen between the socket payload and the committed row. -/
theorem acceptedBid_amount_rounding_counterexample :
    roundToCents (100.015 : ℚ) = (100.02 : ℚ)
    ∧ (100.02 : ℚ) ≠ (100.015 : ℚ)
    ∧ committedStoreDecimal decimalRoundDb "a1" "bob" (100.015 : ℚ) 500 "b1"
      = ⟨[⟨"a1", 100, (100.02 : ℚ), (0.01 : ℚ), 0, 1000, AuctionItemStatus.ACTIVE,
            "carol", none, 500⟩],
          [⟨"b1", "a1", "bob", (100.02 : ℚ), 500, true⟩], []⟩
    ∧ (handlePlaceBid (some ⟨"bob", "bobby"⟩) ⟨"a1", some (100.015 : ℚ)⟩ decimalRoundDb []
        500 "b1" "tok" false).socketEvents
      = [ServerEvent.bidPlacedSuccess "a1" (100.015 : ℚ) "b1" 500] := by
  refine ⟨by norm_num [roundToCents, round_eq], by norm_num, ?_, ?_⟩
  · simp [committedStoreDecimal, decimalRoundDb,
      show roundToCents (100.015 : ℚ) = (100.02 : ℚ) by norm_num [roundToCents, round_eq]]
  · simp [handlePlaceBid, processBidWithDistributedLock, executeWithDistributedLock,
      acquireDistributedLockForBidProcessing, redisGet, processBidTransaction,
      processBidTransactionAt, validateBid, committedStore, Store.findAuction, decimalRoundDb,
      show ¬((100.015 : ℚ) ≤ 0) by norm_num,
      show ¬((100.015 : ℚ) < 100 + 0.01) by norm_num]

/-- C10 amended.  The application layer applies no rounding: for every
accepted bid the result reports the submitted amount as
newHighestBidInDollars, every BID_PLACED_SUCCESS and BID_UPDATE_BROADCAST
event carries it unchanged, and the submitted amount is what the transaction
hands to the store write.  The store itself quantizes at the write: the
DECIMAL(12,2) columns commit the submitted amount rounded to two fractional
digits — equal to the submitted amount exactly whenever it has at most two
fractional digits. -/
theorem acceptedBid_amount_app_exact_store_rounded (r : RedisState) (db : Store)
    (auctionItemId bidderUserId : String) (amt : ℚ) (now : ℕ)
    (newBidId token : String) :
    (committedStoreDecimal db auctionItemId bidderUserId amt now newBidId
      = committedStore db auctionItemId bidderUserId (roundToCents amt) now newBidId)
    ∧ ((amt * 100).den = 1 → roundToCents amt = amt)
    ∧ (∀ res, processBidTransaction db auctionItemId bidderUserId amt now newBidId
          = Except.ok res →
        res.1.wasBidSuccessful = true →
        res.1.newHighestBidInDollars = some amt)
    ∧ (∀ user : UserData, ∀ payload : PlaceBidPayload, ∀ storeThrows : Bool,
        payload.bidAmountInDollars = some amt →
        ∀ e, (e ∈ (handlePlaceBid (some user) payload db r now newBidId token
                storeThrows).socketEvents
            ∨ e ∈ (handlePlaceBid (some user) payload db r now newBidId token
                storeThrows).roomEvents) →
          eventCarriesSubmittedAmount amt e) := by
  refine ⟨rfl, fun hden => ?_, fun res h hs => ?_, ?_⟩
  · have h2 : (((amt * 100).num : ℤ) : ℚ) = amt * 100 := (Rat.den_eq_one_iff _).mp hden
    unfold roundToCents
    rw [← h2, round_intCast, h2]
    field_simp
  · obtain ⟨ai, -, -, -, -, -, -, hres, -⟩ :=
      processBidTransactionAt_ok_success _ _ _ _ _ _ _ _ h hs
    simp [hres]
  · intro user payload storeThrows hamt e he
    unfold handlePlaceBid at he
    simp only [hamt, Option.getD_some] at he
    rcases he with he | he
    · split at he
      · simp only [List.mem_singleton] at he
        subst he
        trivial
      · split at he
        · simp only [List.mem_singleton] at he
          subst he
          trivial
        · simp only [List.mem_singleton] at he
          subst he
          trivial
    · split at he
      · simp at he
      · split at he
        · rename_i hsucc
          have hspec := processBidWithDistributedLock_success_spec r db payload.auctionItemId
            user.userId amt now newBidId token storeThrows hsucc
          simp only [List.mem_singleton] at he
          subst he
          show (processBidWithDistributedLock r db payload.auctionItemId
              user.userId amt now newBidId token storeThrows).1.newHighestBidInDollars.getD 0 = amt
          rw [hspec.1]
          rfl
        · simp at he

/-- Witness for the amended C10: a two-decimal bid of 100.25 dollars is a
fixed point of the store quantization, is reported exactly by an accepted
run, and its success event carries the submitted amount. -/
theorem acceptedBid_amount_app_exact_store_rounded_witness :
    roundToCents (100.25 : ℚ) = (100.25 : ℚ)
    ∧ (⟨true, some "b1", some (100.25 : ℚ), some 100, some 500, none⟩ :
        BidProcessingResult).newHighestBidInDollars = some (100.25 : ℚ)
    ∧ eventCarriesSubmittedAmount (100.25 : ℚ)
        (ServerEvent.bidPlacedSuccess "a1" (100.25 : ℚ) "b1" 500) := by
  have happ := acceptedBid_amount_app_exact_store_rounded [] decimalRoundDb "a1" "bob"
    (100.25 : ℚ) 500 "b1" "tok"
  refine ⟨happ.2.1 (by norm_num), ?_, ?_⟩
  · exact happ.2.2.1
      (⟨true, some "b1", some (100.25 : ℚ), some 100, some 500, none⟩,
        committedStore decimalRoundDb "a1" "bob" (100.25 : ℚ) 500 "b1")
      (by
        simp [processBidTransaction, processBidTransactionAt, validateBid, Store.findAuction,
          decimalRoundDb, show ¬((100.25 : ℚ) < 100 + 0.01) by norm_num])
      rfl
  · have hev : (handlePlaceBid (some ⟨"bob", "bobby"⟩) ⟨"a1", some (100.25 : ℚ)⟩
        decimalRoundDb [] 500 "b1" "tok" false).socketEvents
      = [ServerEvent.bidPlacedSuccess "a1" (100.25 : ℚ) "b1" 500] := by
      simp [handlePlaceBid, processBidWithDistributedLock, executeWithDistributedLock,
        acquireDistributedLockForBidProcessing, redisGet, processBidTransaction,
        processBidTransactionAt, validateBid, committedStore, Store.findAuction, decimalRoundDb,
        show ¬((100.25 : ℚ) ≤ 0) by norm_num,
        show ¬((100.25 : ℚ) < 100 + 0.01) by norm_num]
    exact happ.2.2.2 ⟨"bob", "bobby"⟩ ⟨"a1", some (100.25 : ℚ)⟩ false rfl
      (ServerEvent.bidPlacedSuccess "a1" (100.25 : ℚ) "b1" 500)
      (Or.inl (by rw [hev]; exact List.mem_singleton_self _))

-- ==============================  C2  ==============================

/-- Store fixture for the shape-guard claims: one ACTIVE auction at 100
dollars with a 0.005-dollar increment. -/
def shapeGuardDb : Store :=
  ⟨[⟨"a1", 100, 100, (0.005 : ℚ), 0, 1000, AuctionItemStatus.ACTIVE, "carol", none, 0⟩],
    [], []⟩

/-- C2 is refuted on the code: a submitted amount of 100.005 dollars — three
fractional digits — is not rejected at all: the handler runs the bid pipeline
and the bid is accepted, so no InvalidAmount rejection precedes lock or store
access; and an amount of -5 dollars is rejected before the pipeline but with
the literal errorCode VALIDATION_ERROR, not the BID_INVALID_AMOUNT constant
the claim names. -/
theorem handlePlaceBid_invalid_amount_counterexample :
    ((100.005 : ℚ) * 100).den ≠ 1
    ∧ (handlePlaceBid (some ⟨"bob", "bobby"⟩) ⟨"a1", some (100.005 : ℚ)⟩ shapeGuardDb []
        500 "b1" "tok" false).bidPipelineInvoked = true
    ∧ (handlePlaceBid (some ⟨"bob", "bobby"⟩) ⟨"a1", some (100.005 : ℚ)⟩ shapeGuardDb []
        500 "b1" "tok" false).socketEvents
      = [ServerEvent.bidPlacedSuccess "a1" (100.005 : ℚ) "b1" 500]
    ∧ (handlePlaceBid (some ⟨"bob", "bobby"⟩) ⟨"a1", some (-5 : ℚ)⟩ shapeGuardDb []
        500 "b1" "tok" false).socketEvents
      = [ServerEvent.bidPlacedError "a1" "VALIDATION_ERROR"]
    ∧ "VALIDATION_ERROR" ≠ BID_ERROR_INVALID_AMOUNT := by
  refine ⟨by norm_num, ?_, ?_, ?_, by decide⟩
  · simp [handlePlaceBid, processBidWithDistributedLock, executeWithDistributedLock,
      acquireDistributedLockForBidProcessing, redisGet, processBidTransaction,
      processBidTransactionAt, validateBid, committedStore, Store.findAuction, shapeGuardDb,
      show ¬((100.005 : ℚ) ≤ 0) by norm_num,
      show ¬((100.005 : ℚ) < 100 + 0.005) by norm_num]
  · simp [handlePlaceBid, processBidWithDistributedLock, executeWithDistributedLock,
      acquireDistributedLockForBidProcessing, redisGet, processBidTransaction,
      processBidTransactionAt, validateBid, committedStore, Store.findAuction, shapeGuardDb,
      show ¬((100.005 : ℚ) ≤ 0) by norm_num,
      show ¬((100.005 : ℚ) < 100 + 0.005) by norm_num]
  · simp [handlePlaceBid, show ((-5 : ℚ) ≤ 0) by norm_num]

/-- C2 amended.  The handler's shape guard runs before the pipeline: a missing
or non-number amount, a falsy auctionItemId, or an amount at or below zero is
rejected with the literal errorCode VALIDATION_ERROR, before any lock
acquisition or store access, leaving store and coordinator untouched.  That is
the only shape check: any positive amount — fractional digits unrestricted —
reaches the bid pipeline. -/
theorem handlePlaceBid_shape_guard_amended (user : UserData)
    (payload : PlaceBidPayload) (db : Store) (r : RedisState) (now : ℕ)
    (newBidId token : String) (storeThrows : Bool) :
    (∀ amt, payload.bidAmountInDollars = some amt → amt ≤ 0 →
      handlePlaceBid (some user) payload db r now newBidId token storeThrows
        = ⟨[ServerEvent.bidPlacedError payload.auctionItemId "VALIDATION_ERROR"], [],
            false, db, r⟩)
    ∧ (payload.bidAmountInDollars = none →
      handlePlaceBid (some user) payload db r now newBidId token storeThrows
        = ⟨[ServerEvent.bidPlacedError payload.auctionItemId "VALIDATION_ERROR"], [],
            false, db, r⟩)
    ∧ (∀ amt, payload.bidAmountInDollars = some amt → 0 < amt →
        payload.auctionItemId ≠ "" →
      (handlePlaceBid (some user) payload db r now newBidId token
          storeThrows).bidPipelineInvoked = true) := by
  refine ⟨fun amt hamt hle => ?_, fun hnone => ?_, fun amt hamt hpos hne => ?_⟩
  · unfold handlePlaceBid
    simp [hamt, hle]
  · unfold handlePlaceBid
    simp [hnone]
  · unfold handlePlaceBid
    simp only [hamt, hne, not_lt.mpr, decide_eq_true_eq]
    rw [if_neg (by simp [hne, not_le.mpr hpos])]
    split <;> rfl

/-- Witness for the amended C2: the -5-dollar bid is rejected with
VALIDATION_ERROR before the pipeline, and the 100.005-dollar bid reaches the
pipeline. -/
theorem handlePlaceBid_shape_guard_amended_witness :
    handlePlaceBid (some ⟨"bob", "bobby"⟩) ⟨"a1", some (-5 : ℚ)⟩ shapeGuardDb []
        500 "b1" "tok" false
      = ⟨[ServerEvent.bidPlacedError "a1" "VALIDATION_ERROR"], [], false, shapeGuardDb, []⟩
    ∧ (handlePlaceBid (some ⟨"bob", "bobby"⟩) ⟨"a1", some (100.005 : ℚ)⟩ shapeGuardDb []
        500 "b1" "tok" false).bidPipelineInvoked = true :=
  ⟨(handlePlaceBid_shape_guard_amended ⟨"bob", "bobby"⟩ ⟨"a1", some (-5 : ℚ)⟩ shapeGuardDb []
      500 "b1" "tok" false).1 (-5) rfl (by norm_num),
    (handlePlaceBid_shape_guard_amended ⟨"bob", "bobby"⟩ ⟨"a1", some (100.005 : ℚ)⟩
      shapeGuardDb [] 500 "b1" "tok" false).2.2 (100.005 : ℚ) rfl (by norm_num) (by decide)⟩

-- ==============================  C5  ==============================

/-- Store fixture for the join-snapshot claims: one ENDED auction at 150
dollars with one successful and one failed bid. -/
def joinSnapshotDb : Store :=
  ⟨[⟨"a1", 100, 150, 10, 0, 100, AuctionItemStatus.ENDED, "carol", some "bob", 0⟩],
    [⟨"b1", "a1", "bob", 150, 50, true⟩, ⟨"b2", "a1", "dave", 10, 60, false⟩],
    [⟨"bob", "bobby"⟩]⟩

/-- Coordinator fixture for the join-snapshot claims: the current-bid cache
key holds 999. -/
def joinSnapshotRedis : RedisState := [(generateCurrentBidCacheKey "a1", "999")]

/-- C5 is refuted on the code: joining the room of an ENDED auction whose
cached current bid reads 999 yields a snapshot whose status is the literal
ACTIVE (not the stored ENDED), whose current bid 150 comes from the store (the
coordinator cache is never consulted), and whose totalNumberOfBids 2 counts
the failed bid row as well (the successful bid count is 1). -/
theorem handleJoinRoom_snapshot_counterexample :
    handleJoinRoom joinSnapshotDb joinSnapshotRedis "a1"
      = [ServerEvent.joinedAuctionRoom "a1",
          ServerEvent.auctionStateSync "a1" 150 (some "bob") (some "bobby") 100 "ACTIVE" 2]
    ∧ (joinSnapshotDb.findAuction "a1").map (fun a => a.currentStatus)
        = some AuctionItemStatus.ENDED
    ∧ redisGet joinSnapshotRedis (generateCurrentBidCacheKey "a1") = some "999"
    ∧ (joinSnapshotDb.successfulBidsOn "a1").length = 1 := by
  refine ⟨?_, rfl, rfl, rfl⟩
  simp [handleJoinRoom, fetchCurrentAuctionBidInfo, joinSnapshotDb, Store.findAuction,
    Store.findUser, Store.highestSuccessfulBid, Store.successfulBidsOn, Store.bidsOn,
    findFirstByAmountDesc, pickHigher]

/-- C5 amended.  The join reply is independent of the coordinator state — the
handler never reads the cache — and, when the auction exists, the snapshot is
built from the store alone: the auction row's current highest bid and end
time, the highest successful bidder's id and username from the bids and users
tables, the literal status string ACTIVE regardless of the stored status, and
the count of all bid rows on the item, failed attempts included. -/
theorem handleJoinRoom_snapshot_amended (db : Store) (r r2 : RedisState)
    (auctionItemId : String) :
    handleJoinRoom db r auctionItemId = handleJoinRoom db r2 auctionItemId
    ∧ (∀ a, db.findAuction auctionItemId = some a → auctionItemId ≠ "" →
        handleJoinRoom db r auctionItemId
          = [ServerEvent.joinedAuctionRoom auctionItemId,
              ServerEvent.auctionStateSync a.id a.currentHighestBidInDollars
                ((db.highestSuccessfulBid auctionItemId).map (fun b => b.bidderUserId))
                ((db.highestSuccessfulBid auctionItemId).bind
                  (fun b => (db.findUser b.bidderUserId).map (fun u => u.username)))
                a.auctionEndTimeTimestamp "ACTIVE" (db.bidsOn auctionItemId).length]) := by
  refine ⟨rfl, fun a ha hne => ?_⟩
  simp [handleJoinRoom, fetchCurrentAuctionBidInfo, ha, hne]

/-- Witness for the amended C5 at the fixture store: the snapshot equals the
store-derived values with the hard-coded ACTIVE status. -/
theorem handleJoinRoom_snapshot_amended_witness :
    handleJoinRoom joinSnapshotDb joinSnapshotRedis "a1"
      = [ServerEvent.joinedAuctionRoom "a1",
          ServerEvent.auctionStateSync "a1" 150
            ((joinSnapshotDb.highestSuccessfulBid "a1").map (fun b => b.bidderUserId))
            ((joinSnapshotDb.highestSuccessfulBid "a1").bind
              (fun b => (joinSnapshotDb.findUser b.bidderUserId).map (fun u => u.username)))
            100 "ACTIVE" (joinSnapshotDb.bidsOn "a1").length] :=
  (handleJoinRoom_snapshot_amended joinSnapshotDb joinSnapshotRedis [] "a1").2
    ⟨"a1", 100, 150, 10, 0, 100, AuctionItemStatus.ENDED, "carol", some "bob", 0⟩
    rfl (by decide)

-- ==============================  findFirst lemmas  ==============================

lemma foldl_pickHigher_keep (l : List BidRow) (m : BidRow)
    (h : ∀ b ∈ l, ¬(m.bidAmountInDollars < b.bidAmountInDollars)) :
    l.foldl pickHigher (some m) = some m := by
  induction l with
  | nil => rfl
  | cons x xs ih =>
      have hx : pickHigher (some m) x = some m := by
        simp [pickHigher, h x (List.mem_cons_self x xs)]
      rw [List.foldl_cons, hx]
      exact ih (fun b hb => h b (List.mem_cons_of_mem x hb))

lemma foldl_pickHigher_unique_max (l : List BidRow) (b : BidRow) (hmem : b ∈ l)
    (hmax : ∀ b2 ∈ l, b2 ≠ b → b2.bidAmountInDollars < b.bidAmountInDollars) :
    ∀ m, m.bidAmountInDollars < b.bidAmountInDollars →
      l.foldl pickHigher (some m) = some b := by
  induction l with
  | nil => cases hmem
  | cons x xs ih =>
      intro m hm
      by_cases hx : x = b
      · subst hx
        have hstep : pickHigher (some m) x = some x := by
          simp [pickHigher, hm]
        rw [List.foldl_cons, hstep]
        apply foldl_pickHigher_keep
        intro b2 hb2
        by_cases hb2x : b2 = x
        · subst hb2x
          exact lt_irrefl _
        · exact not_lt.mpr (le_of_lt (hmax b2 (List.mem_cons_of_mem x hb2) hb2x))
      · have hbxs : b ∈ xs := by
          rcases List.mem_cons.mp hmem with h1 | h1
          · exact absurd h1.symm hx
          · exact h1
        have hxlt : x.bidAmountInDollars < b.bidAmountInDollars :=
          hmax x (List.mem_cons_self x xs) hx
        have hmax2 : ∀ b2 ∈ xs, b2 ≠ b → b2.bidAmountInDollars < b.bidAmountInDollars :=
          fun b2 hb2 => hmax b2 (List.mem_cons_of_mem x hb2)
        rw [List.foldl_cons]
        by_cases hcc : m.bidAmountInDollars < x.bidAmountInDollars
        · rw [show pickHigher (some m) x = some x from by simp [pickHigher, hcc]]
          exact ih hbxs hmax2 x hxlt
        · rw [show pickHigher (some m) x = some m from by simp [pickHigher, hcc]]
          exact ih hbxs hmax2 m hm

lemma findFirstByAmountDesc_unique_max (l : List BidRow) (b : BidRow) (hmem : b ∈ l)
    (hmax : ∀ b2 ∈ l, b2 ≠ b → b2.bidAmountInDollars < b.bidAmountInDollars) :
    findFirstByAmountDesc l = some b := by
  cases l with
  | nil => cases hmem
  | cons x xs =>
      unfold findFirstByAmountDesc
      rw [List.foldl_cons]
      show xs.foldl pickHigher (some x) = some b
      by_cases hx : x = b
      · subst hx
        apply foldl_pickHigher_keep
        intro b2 hb2
        by_cases hb2x : b2 = x
        · subst hb2x
          exact lt_irrefl _
        · exact not_lt.mpr (le_of_lt (hmax b2 (List.mem_cons_of_mem x hb2) hb2x))
      · have hbxs : b ∈ xs := by
          rcases List.mem_cons.mp hmem with h1 | h1
          · exact absurd h1.symm hx
          · exact h1
        exact foldl_pickHigher_unique_max xs b hbxs
          (fun b2 hb2 => hmax b2 (List.mem_cons_of_mem x hb2)) x
          (hmax x (List.mem_cons_self x xs) hx)

lemma foldl_pickHigher_ne_none (l : List BidRow) (m : BidRow) :
    l.foldl pickHigher (some m) ≠ none := by
  induction l generalizing m with
  | nil => simp
  | cons x xs ih =>
      rw [List.foldl_cons]
      by_cases hcc : m.bidAmountInDollars < x.bidAmountInDollars
      · rw [show pickHigher (some m) x = some x from by simp [pickHigher, hcc]]
        exact ih x
      · rw [show pickHigher (some m) x = some m from by simp [pickHigher, hcc]]
        exact ih m

lemma findFirstByAmountDesc_eq_none (l : List BidRow)
    (h : findFirstByAmountDesc l = none) : l = [] := by
  cases l with
  | nil => rfl
  | cons x xs =>
      unfold findFirstByAmountDesc at h
      rw [List.foldl_cons] at h
      exact absurd h (foldl_pickHigher_ne_none xs x)

-- ==============================  assignWinners lemmas  ==============================

lemma assignWinners_preserves_winner (bids : List BidRow) (auctionId : String) (hb : BidRow)
    (hfind : findFirstByAmountDesc
        (bids.filter (fun b => b.auctionItemId = auctionId && b.wasBidSuccessful)) = some hb) :
    ∀ (pending : List String) (auctions : List AuctionItem),
      (∀ a ∈ auctions, a.id = auctionId → a.winnerUserId = some hb.bidderUserId) →
      ∀ a ∈ assignWinners bids pending auctions, a.id = auctionId →
        a.winnerUserId = some hb.bidderUserId := by
  intro pending
  induction pending with
  | nil => exact fun auctions hpre => hpre
  | cons x rest ih =>
      intro auctions hpre
      show ∀ a ∈ assignWinners bids rest _, _
      apply ih
      cases hfx : findFirstByAmountDesc
          (bids.filter (fun b => b.auctionItemId = x && b.wasBidSuccessful)) with
      | none =>
          simp only [hfx]
          exact hpre
      | some hbx =>
          simp only [hfx]
          intro a ha haid
          obtain ⟨a0, ha0, hmap⟩ := List.mem_map.mp ha
          by_cases hid : a0.id = x
          · rw [if_pos hid] at hmap
            have hida : a.id = a0.id := by rw [← hmap]
            have hxa : x = auctionId := by
              have h2 := haid
              rw [hida, hid] at h2
              exact h2
            subst hxa
            rw [hfx] at hfind
            cases hfind
            rw [← hmap]
          · rw [if_neg hid] at hmap
            rw [← hmap]
            exact hpre a0 ha0 (hmap ▸ haid)

lemma assignWinners_assigns (bids : List BidRow) (auctionId : String) (hb : BidRow)
    (hfind : findFirstByAmountDesc
        (bids.filter (fun b => b.auctionItemId = auctionId && b.wasBidSuccessful)) = some hb) :
    ∀ (pending : List String) (auctions : List AuctionItem), auctionId ∈ pending →
      ∀ a ∈ assignWinners bids pending auctions, a.id = auctionId →
        a.winnerUserId = some hb.bidderUserId := by
  intro pending
  induction pending with
  | nil => intro auctions hmem; cases hmem
  | cons x rest ih =>
      intro auctions hmem
      by_cases hx : x = auctionId
      · subst hx
        show ∀ a ∈ assignWinners bids rest _, _
        apply assignWinners_preserves_winner bids x hb hfind
        simp only [hfind]
        intro a ha haid
        obtain ⟨a0, ha0, hmap⟩ := List.mem_map.mp ha
        by_cases hid : a0.id = x
        · rw [if_pos hid] at hmap
          rw [← hmap]
        · rw [if_neg hid] at hmap
          exact absurd (hmap ▸ haid) hid
      · have hmem2 : auctionId ∈ rest := by
          rcases List.mem_cons.mp hmem with h1 | h1
          · exact absurd h1.symm hx
          · exact h1
        show ∀ a ∈ assignWinners bids rest _, _
        exact ih _ hmem2

lemma assignWinners_no_winner_no_bids (bids : List BidRow) :
    ∀ (pending : List String) (auctions : List AuctionItem),
      (∀ a ∈ auctions, a.currentStatus = AuctionItemStatus.ENDED → a.winnerUserId = none →
        a.id ∈ pending ∨
          bids.filter (fun b => b.auctionItemId = a.id && b.wasBidSuccessful) = []) →
      ∀ a ∈ assignWinners bids pending auctions,
        a.currentStatus = AuctionItemStatus.ENDED → a.winnerUserId = none →
        bids.filter (fun b => b.auctionItemId = a.id && b.wasBidSuccessful) = [] := by
  intro pending
  induction pending with
  | nil =>
      intro auctions hpre a ha hend hwin
      rcases hpre a ha hend hwin with h1 | h1
      · cases h1
      · exact h1
  | cons x rest ih =>
      intro auctions hpre
      show ∀ a ∈ assignWinners bids rest _, _
      apply ih
      cases hfx : findFirstByAmountDesc
          (bids.filter (fun b => b.auctionItemId = x && b.wasBidSuccessful)) with
      | none =>
          simp only [hfx]
          intro a ha hend hwin
          rcases hpre a ha hend hwin with h1 | h1
          · rcases List.mem_cons.mp h1 with h2 | h2
            · right
              rw [h2]
              exact findFirstByAmountDesc_eq_none _ hfx
            · exact Or.inl h2
          · exact Or.inr h1
      | some hbx =>
          simp only [hfx]
          intro a ha hend hwin
          obtain ⟨a0, ha0, hmap⟩ := List.mem_map.mp ha
          by_cases hid : a0.id = x
          · rw [if_pos hid] at hmap
            rw [← hmap] at hwin
            cases hwin
          · rw [if_neg hid] at hmap
            subst hmap
            rcases hpre a0 ha0 hend hwin with h1 | h1
            · rcases List.mem_cons.mp h1 with h2 | h2
              · exact absurd h2 hid
              · exact Or.inl h2
            · exact Or.inr h1

-- ==============================  C3  ==============================

/-- Store fixture for the winner-selection tie: two successful bids of equal
amount on an expired ACTIVE auction.  The first-inserted row has the later
placedAtTimestamp and the lexicographically larger bidId. -/
def tieDb : Store :=
  ⟨[⟨"a1", 100, 120, 10, 0, 100, AuctionItemStatus.ACTIVE, "carol", none, 0⟩],
    [⟨"z9", "a1", "userZ", 120, 2000, true⟩, ⟨"aa", "a1", "userA", 120, 1000, true⟩],
    []⟩

/-- C3 is refuted on the code: with two successful bids tied at 120 dollars,
the reaper elects the bidder of the first-inserted row (userZ) although the
other tied bid has both the earlier placedAtTimestamp (1000 versus 2000) and
the lexicographically smaller bidId (aa versus z9), so under the claim the
winner would be userA.  The winner query orders by amount alone and has no
placedAt or bidId tie-break. -/
theorem reaper_winner_tie_counterexample :
    ((markExpiredAuctionsAsEnded tieDb 200).2.findAuction "a1").map
        (fun a => a.winnerUserId) = some (some "userZ")
    ∧ tieDb.successfulBidsOn "a1"
        = [⟨"z9", "a1", "userZ", 120, 2000, true⟩, ⟨"aa", "a1", "userA", 120, 1000, true⟩]
    ∧ (1000 : ℕ) < 2000
    ∧ ("aa" : String) < "z9"
    ∧ some "userZ" ≠ some "userA" := by
  refine ⟨?_, by decide, by decide, by rw [String.lt_iff_toList_lt]; decide, by decide⟩
  simp [markExpiredAuctionsAsEnded, assignWinners, tieDb, Store.findAuction,
    findFirstByAmountDesc, pickHigher, show ¬((120 : ℚ) < 120) by norm_num]

/-- C3 amended.  The reaper's winner query orders the successful bids by
amount descending only, so it elects the bidder of the store's first-listed
highest-amount successful bid; ties on amount are resolved by row order alone,
with no placedAt or bidId tie-break.  In particular, whenever one successful
bid strictly exceeds every other successful bid on an expired ACTIVE auction
with no winner, that bid's bidder is written as the winner. -/
theorem reaper_winner_unique_max (db : Store) (now : ℕ) (a : AuctionItem) (b : BidRow)
    (ha : a ∈ db.auctions) (hact : a.currentStatus = AuctionItemStatus.ACTIVE)
    (hend : a.auctionEndTimeTimestamp ≤ now) (hwin : a.winnerUserId = none)
    (hbmem : b ∈ db.successfulBidsOn a.id)
    (hmax : ∀ b2 ∈ db.successfulBidsOn a.id, b2 ≠ b →
      b2.bidAmountInDollars < b.bidAmountInDollars) :
    ∀ a2 ∈ (markExpiredAuctionsAsEnded db now).2.auctions, a2.id = a.id →
      a2.winnerUserId = some b.bidderUserId := by
  have hfind : findFirstByAmountDesc
      (db.bids.filter (fun b2 => b2.auctionItemId = a.id && b2.wasBidSuccessful)) = some b :=
    findFirstByAmountDesc_unique_max _ b hbmem hmax
  intro a2 ha2 haid
  unfold markExpiredAuctionsAsEnded at ha2
  simp only at ha2
  refine assignWinners_assigns db.bids a.id b hfind _ _ ?_ a2 ha2 haid
  have hexp : (a.currentStatus = AuctionItemStatus.ACTIVE
      && decide (a.auctionEndTimeTimestamp ≤ now)) = true := by
    simp [hact, hend]
  have hflip : ({ a with currentStatus := AuctionItemStatus.ENDED } : AuctionItem)
      ∈ db.auctions.map (fun x =>
        if x.currentStatus = AuctionItemStatus.ACTIVE
            && decide (x.auctionEndTimeTimestamp ≤ now) then
          { x with currentStatus := AuctionItemStatus.ENDED }
        else x) := by
    refine List.mem_map.mpr ⟨a, ha, ?_⟩
    rw [if_pos hexp]
  refine List.mem_map.mpr ⟨{ a with currentStatus := AuctionItemStatus.ENDED }, ?_, rfl⟩
  refine List.mem_filter.mpr ⟨hflip, ?_⟩
  simp [hwin]

/-- Witness for the amended C3: on a store with successful bids of 110 and 130
dollars, the auction row the reaper leaves behind carries the 130-dollar
bidder as winner. -/
theorem reaper_winner_unique_max_witness :
    (⟨"a1", 100, 130, 10, 0, 100, AuctionItemStatus.ENDED, "carol", some "cara", 0⟩ :
        AuctionItem).winnerUserId = some "cara" :=
  reaper_winner_unique_max
    ⟨[⟨"a1", 100, 130, 10, 0, 100, AuctionItemStatus.ACTIVE, "carol", none, 0⟩],
      [⟨"b1", "a1", "bob", 110, 10, true⟩, ⟨"b2", "a1", "cara", 130, 20, true⟩], []⟩
    200
    ⟨"a1", 100, 130, 10, 0, 100, AuctionItemStatus.ACTIVE, "carol", none, 0⟩
    ⟨"b2", "a1", "cara", 130, 20, true⟩
    (by decide) rfl (by decide) rfl (by decide)
    (by
      intro b2 hb2 hne
      have hb2m : b2 = (⟨"b1", "a1", "bob", 110, 10, true⟩ : BidRow) ∨
          b2 = (⟨"b2", "a1", "cara", 130, 20, true⟩ : BidRow) := by
        have := hb2
        simp [Store.successfulBidsOn] at this
        rcases this with h | h
        · exact Or.inl (by cases b2; simp_all)
        · exact Or.inr (by cases b2; simp_all)
      rcases hb2m with h | h
      · rw [h]
        norm_num
      · exact absurd h hne)
    ⟨"a1", 100, 130, 10, 0, 100, AuctionItemStatus.ENDED, "carol", some "cara", 0⟩
    (by decide) rfl

-- ==============================  C9  ==============================

/-- C9.  After any single run of the reaper's end-expired-auctions operation,
no auction row is left ENDED with a null winnerUserId while it has at least
one successful bid: the winner pass queries every ENDED-with-null-winner row —
including rows ended by earlier runs whose winner assignment never happened —
so any row still ENDED with a null winner afterwards has no successful bid. -/
theorem reaper_covers_all_ended_without_winner (db : Store) (now : ℕ) :
    ∀ a ∈ (markExpiredAuctionsAsEnded db now).2.auctions,
      a.currentStatus = AuctionItemStatus.ENDED → a.winnerUserId = none →
      (markExpiredAuctionsAsEnded db now).2.successfulBidsOn a.id = [] := by
  intro a ha hend hwin
  unfold markExpiredAuctionsAsEnded at ha ⊢
  simp only at ha ⊢
  show db.bids.filter _ = []
  refine assignWinners_no_winner_no_bids db.bids _ _ ?_ a ha hend hwin
  intro a2 ha2 hend2 hwin2
  left
  refine List.mem_map.mpr ⟨a2, ?_, rfl⟩
  refine List.mem_filter.mpr ⟨ha2, ?_⟩
  simp [hend2, hwin2]

/-- Witness for C9: a stale ENDED auction with a null winner and no successful
bids remains winnerless and indeed has no successful bid after the run. -/
theorem reaper_covers_all_ended_without_winner_witness :
    (markExpiredAuctionsAsEnded
        ⟨[⟨"a9", 100, 100, 10, 0, 50, AuctionItemStatus.ENDED, "carol", none, 0⟩], [], []⟩
        60).2.successfulBidsOn "a9" = [] :=
  reaper_covers_all_ended_without_winner
    ⟨[⟨"a9", 100, 100, 10, 0, 50, AuctionItemStatus.ENDED, "carol", none, 0⟩], [], []⟩ 60
    ⟨"a9", 100, 100, 10, 0, 50, AuctionItemStatus.ENDED, "carol", none, 0⟩
    (by decide) rfl rfl

-- ==============================  C4  ==============================

/-- C4 names a real bug: the expiry tick flips an auction to ENDED and
assigns its winner, yet emits zero auction-ended events — the claim (and the
loop the code itself contains for this purpose) calls for exactly one event
per ended auction.  The tick reads the count and endedAuctions properties off
the plain number markExpiredAuctionsAsEnded returns, gets undefined, and the
broadcast loop is never entered. -/
theorem reaperTick_emits_no_events :
    (checkExpiredAuctions
        ⟨[⟨"a4", 100, 110, 10, 0, 10, AuctionItemStatus.ACTIVE, "carol", none, 0⟩],
          [⟨"b4", "a4", "bob", 110, 5, true⟩], []⟩ 20).1 = []
    ∧ (markExpiredAuctionsAsEnded
        ⟨[⟨"a4", 100, 110, 10, 0, 10, AuctionItemStatus.ACTIVE, "carol", none, 0⟩],
          [⟨"b4", "a4", "bob", 110, 5, true⟩], []⟩ 20).1 = 1
    ∧ ((checkExpiredAuctions
        ⟨[⟨"a4", 100, 110, 10, 0, 10, AuctionItemStatus.ACTIVE, "carol", none, 0⟩],
          [⟨"b4", "a4", "bob", 110, 5, true⟩], []⟩ 20).2.findAuction "a4").map
        (fun a => (a.currentStatus, a.winnerUserId))
      = some (AuctionItemStatus.ENDED, some "bob") := by
  refine ⟨?_, by decide, by decide⟩
  unfold checkExpiredAuctions
  simp [jsGreaterThanZero, jsNumberCountProperty]

-- ==============================  C6: reachability and invariant  ==============================

/-- Store after one sequential placeBid request under the per-auction lock:
the transaction result when it returns, the unchanged store when it throws. -/
def applyPlaceBid (db : Store) (auctionItemId bidderUserId : String)
    (bidAmountInDollars : ℚ) (now : ℕ) (newBidId : String) : Store :=
  match processBidTransaction db auctionItemId bidderUserId bidAmountInDollars now newBidId with
  | Except.ok res => res.2
  | Except.error _ => db

/-- Stores reachable from an initial store by sequential placeBid requests
(the serialization the per-auction lock enforces), each request carrying a
wall-clock timestamp later than every bid already recorded. -/
inductive ReachableByBids : Store → Store → Prop where
  | refl (db : Store) : ReachableByBids db db
  | step (db0 db : Store) (auctionItemId bidderUserId : String)
      (bidAmountInDollars : ℚ) (now : ℕ) (newBidId : String)
      (h : ReachableByBids db0 db)
      (hfresh : ∀ b ∈ db.bids, b.placedAtTimestamp < now) :
      ReachableByBids db0
        (applyPlaceBid db auctionItemId bidderUserId bidAmountInDollars now newBidId)

/-- Inductive invariant of the bid pipeline: auction ids are unique, every
increment is nonnegative, every successful bid is bounded by its auction's
current highest bid, and successful bids on one auction grow by at least the
minimum increment along placedAt order. -/
def BidChainInv (db : Store) : Prop :=
  (db.auctions.map AuctionItem.id).Nodup
  ∧ ∀ a ∈ db.auctions,
      0 ≤ a.minimumBidIncrementInDollars
      ∧ (∀ b ∈ db.successfulBidsOn a.id,
          b.bidAmountInDollars ≤ a.currentHighestBidInDollars)
      ∧ (∀ b1 ∈ db.successfulBidsOn a.id, ∀ b2 ∈ db.successfulBidsOn a.id,
          b1.placedAtTimestamp < b2.placedAtTimestamp →
          b1.bidAmountInDollars + a.minimumBidIncrementInDollars ≤ b2.bidAmountInDollars)

lemma successfulBidsOn_committedStore (db : Store) (auctionItemId bidderUserId : String)
    (amt : ℚ) (now : ℕ) (newBidId : String) (x : String) :
    (committedStore db auctionItemId bidderUserId amt now newBidId).successfulBidsOn x
      = db.successfulBidsOn x
        ++ (if auctionItemId = x
            then [⟨newBidId, auctionItemId, bidderUserId, amt, now, true⟩] else []) := by
  unfold committedStore Store.successfulBidsOn
  rw [List.filter_append]
  congr 1
  by_cases h : auctionItemId = x
  · simp [h]
  · simp [h]

lemma findAuction_unique (db : Store) (auctionItemId : String) (ai : AuctionItem)
    (hnodup : (db.auctions.map AuctionItem.id).Nodup)
    (hfind : db.findAuction auctionItemId = some ai) :
    ∀ a ∈ db.auctions, a.id = auctionItemId → a = ai := by
  intro a ha haid
  have hai : ai ∈ db.auctions := List.mem_of_find?_eq_some hfind
  have haiid : ai.id = auctionItemId := by simpa using List.find?_some hfind
  exact List.inj_on_of_nodup_map hnodup ha hai (by rw [haid, haiid])

lemma bidChainInv_applyPlaceBid (db : Store) (auctionItemId bidderUserId : String)
    (amt : ℚ) (now : ℕ) (newBidId : String)
    (hInv : BidChainInv db) (hfresh : ∀ b ∈ db.bids, b.placedAtTimestamp < now) :
    BidChainInv (applyPlaceBid db auctionItemId bidderUserId amt now newBidId) := by
  unfold applyPlaceBid
  cases h : processBidTransaction db auctionItemId bidderUserId amt now newBidId with
  | error e => exact hInv
  | ok res =>
      show BidChainInv res.2
      cases hs : res.1.wasBidSuccessful with
      | false =>
          rw [processBidTransactionAt_ok_failure _ _ _ _ _ _ _ _ h hs]
          exact hInv
      | true =>
          obtain ⟨ai, hfind, hact, hstart, hend2, hown, hreq, hres1, hdb⟩ :=
            processBidTransactionAt_ok_success _ _ _ _ _ _ _ _ h hs
          rw [hdb]
          obtain ⟨hnodup, hrows⟩ := hInv
          have hai : ai ∈ db.auctions := List.mem_of_find?_eq_some hfind
          have hinc0 : 0 ≤ ai.minimumBidIncrementInDollars := (hrows ai hai).1
          have hcurle : ai.currentHighestBidInDollars ≤ amt := by linarith
          constructor
          · show ((db.auctions.map _).map AuctionItem.id).Nodup
            rw [List.map_map]
            have heq : db.auctions.map (AuctionItem.id ∘ fun a =>
                if a.id = auctionItemId then
                  { a with currentHighestBidInDollars := amt, updatedAtTimestamp := now }
                else a) = db.auctions.map AuctionItem.id := by
              apply List.map_congr_left
              intro a ha
              by_cases hid : a.id = auctionItemId <;> simp [hid]
            rw [heq]
            exact hnodup
          · intro a2 ha2
            obtain ⟨a0, ha0, hmap⟩ := List.mem_map.mp ha2
            by_cases hid : a0.id = auctionItemId
            · have ha0ai : a0 = ai := findAuction_unique db auctionItemId ai hnodup hfind a0 ha0 hid
              subst ha0ai
              rw [if_pos hid] at hmap
              subst hmap
              refine ⟨hinc0, ?_, ?_⟩
              · intro b hb
                rw [successfulBidsOn_committedStore, if_pos hid.symm] at hb
                rcases List.mem_append.mp hb with hb1 | hb1
                · have := (hrows a0 ha0).2.1 b hb1
                  show b.bidAmountInDollars ≤ amt
                  linarith
                · rw [List.mem_singleton] at hb1
                  subst hb1
                  show amt ≤ amt
                  exact le_refl _
              · intro b1 hb1 b2 hb2 hlt
                rw [successfulBidsOn_committedStore, if_pos hid.symm] at hb1 hb2
                rcases List.mem_append.mp hb1 with hm1 | hm1 <;>
                  rcases List.mem_append.mp hb2 with hm2 | hm2
                · exact (hrows a0 ha0).2.2 b1 hm1 b2 hm2 hlt
                · rw [List.mem_singleton] at hm2
                  subst hm2
                  have := (hrows a0 ha0).2.1 b1 hm1
                  show b1.bidAmountInDollars + a0.minimumBidIncrementInDollars ≤ amt
                  linarith
                · rw [List.mem_singleton] at hm1
                  subst hm1
                  have hb2bids : b2 ∈ db.bids := List.mem_of_mem_filter hm2
                  have hfb := hfresh b2 hb2bids
                  have hlt2 : now < b2.placedAtTimestamp := hlt
                  omega
                · rw [List.mem_singleton] at hm1
                  rw [List.mem_singleton] at hm2
                  subst hm1
                  subst hm2
                  exact absurd (show now < now from hlt) (lt_irrefl now)
            · rw [if_neg hid] at hmap
              subst hmap
              rw [successfulBidsOn_committedStore]
              rw [if_neg (fun hcon => hid hcon.symm)]
              rw [List.append_nil]
              exact hrows a0 ha0

lemma bidChainInv_reachable (db0 db : Store) (h0 : BidChainInv db0)
    (hreach : ReachableByBids db0 db) : BidChainInv db := by
  induction hreach with
  | refl => exact h0
  | step dbB aid uid amt now bid h hfresh ih =>
      exact bidChainInv_applyPlaceBid dbB aid uid amt now bid ih hfresh

/-- C6.  In every store reachable from an invariant-satisfying initial store
by sequential placeBid requests with advancing wall clock, any two successful
bids b1, b2 on one auction with b1.placedAt earlier than b2.placedAt satisfy
b2.amount at least b1.amount plus the auction's minimum increment; and every
accepted bid's amount is at least the validation-time currentHighestBid plus
the minimum increment, which is what makes currentHighestBid strictly grow
across accepted bids whenever the increment is positive. -/
theorem successfulBids_monotonic (db0 db : Store) (h0 : BidChainInv db0)
    (hreach : ReachableByBids db0 db) :
    (∀ a ∈ db.auctions, ∀ b1 ∈ db.successfulBidsOn a.id,
        ∀ b2 ∈ db.successfulBidsOn a.id,
        b1.placedAtTimestamp < b2.placedAtTimestamp →
        b1.bidAmountInDollars + a.minimumBidIncrementInDollars ≤ b2.bidAmountInDollars)
    ∧ (∀ auctionItemId bidderUserId amt now newBidId res,
        processBidTransaction db auctionItemId bidderUserId amt now newBidId
            = Except.ok res →
        res.1.wasBidSuccessful = true →
        ∃ a, db.findAuction auctionItemId = some a
          ∧ a.currentHighestBidInDollars + a.minimumBidIncrementInDollars ≤ amt) := by
  have hinv := bidChainInv_reachable db0 db h0 hreach
  constructor
  · exact fun a ha => (hinv.2 a ha).2.2
  · intro aid uid amt now bid res h hs
    obtain ⟨ai, hfind, -, -, -, -, hreq, -, -⟩ :=
      processBidTransactionAt_ok_success _ _ _ _ _ _ _ _ h hs
    exact ⟨ai, hfind, hreq⟩

/-- Initial store of the monotonicity witness: one ACTIVE auction at 100
dollars, increment 10, no bids. -/
def monoDb0 : Store :=
  ⟨[⟨"a1", 100, 100, 10, 0, 1000, AuctionItemStatus.ACTIVE, "carol", none, 0⟩], [], []⟩

/-- Store after bob's accepted 110-dollar bid at time 1. -/
def monoDb1 : Store :=
  ⟨[⟨"a1", 100, 110, 10, 0, 1000, AuctionItemStatus.ACTIVE, "carol", none, 1⟩],
    [⟨"b1", "a1", "bob", 110, 1, true⟩], []⟩

/-- Store after cara's accepted 120-dollar bid at time 2. -/
def monoDb2 : Store :=
  ⟨[⟨"a1", 100, 120, 10, 0, 1000, AuctionItemStatus.ACTIVE, "carol", none, 2⟩],
    [⟨"b1", "a1", "bob", 110, 1, true⟩, ⟨"b2", "a1", "cara", 120, 2, true⟩], []⟩

/-- Witness for C6: a concrete two-bid trace — 110 then 120 dollars — reaches
a store whose two successful bids satisfy the increment gap 110 + 10 ≤ 120. -/
theorem successfulBids_monotonic_witness :
    (110 : ℚ) + 10 ≤ 120 := by
  have h0 : BidChainInv monoDb0 := by
    refine ⟨by decide, ?_⟩
    intro a ha
    simp only [monoDb0, List.mem_singleton] at ha
    subst ha
    refine ⟨by norm_num, ?_, ?_⟩
    · intro b hb
      simp [Store.successfulBidsOn, monoDb0] at hb
    · intro b1 hb1
      simp [Store.successfulBidsOn, monoDb0] at hb1
  have h1 : applyPlaceBid monoDb0 "a1" "bob" 110 1 "b1" = monoDb1 := by
    simp [applyPlaceBid, processBidTransaction, processBidTransactionAt, validateBid,
      committedStore, Store.findAuction, monoDb0, monoDb1,
      show ¬((110 : ℚ) < 100 + 10) by norm_num]
  have h2 : applyPlaceBid monoDb1 "a1" "cara" 120 2 "b2" = monoDb2 := by
    simp [applyPlaceBid, processBidTransaction, processBidTransactionAt, validateBid,
      committedStore, Store.findAuction, monoDb1, monoDb2,
      show ¬((120 : ℚ) < 110 + 10) by norm_num]
  have hr1 : ReachableByBids monoDb0 monoDb1 := by
    have hstep := ReachableByBids.step monoDb0 monoDb0 "a1" "bob" 110 1 "b1"
      (ReachableByBids.refl monoDb0) (by intro b hb; simp [monoDb0] at hb)
    rwa [h1] at hstep
  have hr2 : ReachableByBids monoDb0 monoDb2 := by
    have hstep := ReachableByBids.step monoDb0 monoDb1 "a1" "cara" 120 2 "b2" hr1
      (by
        intro b hb
        simp only [monoDb1, List.mem_singleton] at hb
        subst hb
        decide)
    rwa [h2] at hstep
  exact (successfulBids_monotonic monoDb0 monoDb2 h0 hr2).1
    ⟨"a1", 100, 120, 10, 0, 1000, AuctionItemStatus.ACTIVE, "carol", none, 2⟩ (by decide)
    ⟨"b1", "a1", "bob", 110, 1, true⟩ (by decide)
    ⟨"b2", "a1", "cara", 120, 2, true⟩ (by decide)
    (by decide)

end AuctionMaster
